import Mathlib

/-!
Verification development for the warehouse simple-index repository
(`dephell/repositories/warehouse/_simple.py`).

Strings are modelled as `List Char`.  Python string primitives used by the
source (`str.split`, `str.rsplit` with `maxsplit`, `str.partition`,
`str.strip`, `str.endswith`, `'sep'.join`) are embedded below, and the
functions of the source file are translated on top of them.
-/

namespace Warehouse

/-- Python `sep.join(parts)` (for an arbitrary separator string, as used for
`'-'.join` and `' || '.join`). -/
def joinSep (sep : List Char) : List (List Char) → List Char
  | [] => []
  | [p] => p
  | p :: q :: ps => p ++ sep ++ joinSep sep (q :: ps)

/-- Python `s.split(c)` for a one-character separator: `''.split(c) = ['']`,
`'-'.split('-') = ['', '']`, etc. -/
def splitOnChar (c : Char) : List Char → List (List Char)
  | [] => [[]]
  | x :: xs =>
    match splitOnChar c xs with
    | [] => [[]]
    | y :: ys => if x = c then [] :: y :: ys else (x :: y) :: ys

/-- Python `s.rsplit(c, maxsplit=n)[0]`: the full split re-joined on the left
so that at most `n` separators (counted from the right) take effect. -/
def rsplitHead (c : Char) (n : Nat) (s : List Char) : List Char :=
  let parts := splitOnChar c s
  if parts.length ≤ n + 1 then parts.headD []
  else joinSep [c] (parts.take (parts.length - n))

/-- Python `s.rsplit(c, maxsplit=n)[0]` with the list indexing `[0]` made
explicit as a fallible operation (it would raise `IndexError` on an empty
list). -/
def rsplitHeadChecked (c : Char) (n : Nat) (s : List Char) : Option (List Char) :=
  let parts := splitOnChar c s
  if parts.length ≤ n + 1 then parts.head?
  else some (joinSep [c] (parts.take (parts.length - n)))

/-- Python `s.partition(c)` restricted to the `(before, after)` components
(the source discards the separator component). When `c` is absent the result
is `(s, '')`. -/
def partitionChar (c : Char) (s : List Char) : List Char × List Char :=
  if c ∈ s then (s.takeWhile (· ≠ c), (s.dropWhile (· ≠ c)).tail)
  else (s, [])

/-- The character class stripped by Python `str.strip()`
(`Py_UNICODE_ISSPACE`): the Unicode whitespace code points
U+0009-U+000D, U+001C-U+0020, U+0085, U+00A0, U+1680, U+2000-U+200A,
U+2028, U+2029, U+202F, U+205F and U+3000. -/
def pyIsSpace (c : Char) : Bool :=
  (0x09 ≤ c.toNat ∧ c.toNat ≤ 0x0d) ∨ (0x1c ≤ c.toNat ∧ c.toNat ≤ 0x20) ∨
    c.toNat = 0x85 ∨ c.toNat = 0xa0 ∨ c.toNat = 0x1680 ∨
    (0x2000 ≤ c.toNat ∧ c.toNat ≤ 0x200a) ∨ c.toNat = 0x2028 ∨ c.toNat = 0x2029 ∨
    c.toNat = 0x202f ∨ c.toNat = 0x205f ∨ c.toNat = 0x3000

/-- Python `s.strip()`: remove leading and trailing Unicode whitespace. -/
def trimWs (s : List Char) : List Char :=
  ((s.dropWhile pyIsSpace).reverse.dropWhile pyIsSpace).reverse

/-- Python `s.endswith(t)`. -/
def endsWith (t s : List Char) : Bool :=
  t.isSuffixOf s

/-- `REX_WORD = re.compile('[a-zA-Z]+')`; `REX_WORD.match(part)` succeeds
iff `part` begins with an ASCII letter. -/
def rexWordMatch (part : List Char) : Bool :=
  match part with
  | [] => false
  | c :: _ => c.isAlpha

/-- `WarehouseSimpleRepo._parse_name` (source lines 155-174): split an
artifact filename into a `(name, version)` pair, using the wheel convention
for `*.whl` files and the source-archive heuristic otherwise. -/
def parse_name (fname : List Char) : List Char × List Char :=
  let fname1 := trimWs fname
  if endsWith ".whl".toList fname1 then
    partitionChar '-' (rsplitHead '-' 3 fname1)
  else
    let f1 := rsplitHead '.' 1 fname1
    let f2 := if endsWith ".tar".toList f1 then rsplitHead '.' 1 f1 else f1
    let parts := splitOnChar '-' f2
    let nameParts := parts.takeWhile rexWordMatch
    (joinSep ['-'] nameParts, joinSep ['-'] (parts.drop nameParts.length))

/-- `_parse_name` with every fallible Python operation (the `[0]` list
indexings after `rsplit`) made explicit: `none` would correspond to an
uncaught `IndexError`. -/
def parse_name_checked (fname : List Char) : Option (List Char × List Char) :=
  let fname1 := trimWs fname
  if endsWith ".whl".toList fname1 then
    match rsplitHeadChecked '-' 3 fname1 with
    | none => none
    | some base => some (partitionChar '-' base)
  else
    match rsplitHeadChecked '.' 1 fname1 with
    | none => none
    | some f1 =>
      match (if endsWith ".tar".toList f1 then rsplitHeadChecked '.' 1 f1 else some f1) with
      | none => none
      | some f2 =>
        let parts := splitOnChar '-' f2
        let nameParts := parts.takeWhile rexWordMatch
        some (joinSep ['-'] nameParts, joinSep ['-'] (parts.drop nameParts.length))

example : parse_name "foo-1.0-py3-none-any.whl".toList = ("foo".toList, "1.0".toList) := by decide
example : parse_name "foo-1.0".toList = ("foo".toList, "1".toList) := by decide
example : parse_name "foo-1.0.tar.gz".toList = ("foo".toList, "1.0".toList) := by decide
example : parse_name "foo-2.0a1.tar.gz".toList = ("foo".toList, "2.0a1".toList) := by decide
example : parse_name "".toList = ([], []) := by decide
example : parse_name "1foo-2".toList = ([], "1foo-2".toList) := by decide
example : parse_name "a-b-1.0-py3-none-any.whl".toList = ("a".toList, "b-1.0".toList) := by decide

/-- Separator characters collapsed by name canonicalization. -/
def isSep (c : Char) : Bool :=
  c = '-' ∨ c = '_' ∨ c = '.'

/-- Collapse every run of `-`, `_`, `.` to a single `-`
(the `re.sub(r"[-_.]+", "-", name)` step). -/
def collapseSep : List Char → List Char
  | [] => []
  | [c] => if isSep c then ['-'] else [c]
  | c :: d :: cs =>
    if isSep c then
      if isSep d then collapseSep (d :: cs) else '-' :: collapseSep (d :: cs)
    else c :: collapseSep (d :: cs)

/-- Modelled from the spec: `packaging.utils.canonicalize_name` (an external
collaborator, not part of this repository): runs of `-`, `_`, `.` collapse to
a single `-` and the result is lowercased. -/
def canonicalize_name (s : List Char) : List Char :=
  (collapseSep s).map Char.toLower

example : canonicalize_name "Foo_Bar..baz".toList = "foo-bar-baz".toList := by decide

/-- One link record produced by `_get_links` (keys `url`, `name`, `python`,
`digest` of the yielded dict). `python` is a string (`'*'` when absent) and
`digest` an optional string, matching the dict values. -/
structure Link where
  name : List Char
  url : List Char
  python : List Char
  digest : Option (List Char)
deriving DecidableEq, Repr

/-- The two converter kinds imported by `_get_deps_from_links`. -/
inductive Converter
  | wheel
  | sdist
deriving DecidableEq, Repr

/-- The fixed priority table of `_get_deps_from_links` (source lines 200-206). -/
def rules : List (Converter × List Char) :=
  [(Converter.wheel, "py3-none-any.whl".toList),
   (Converter.wheel, "-none-any.whl".toList),
   (Converter.wheel, ".whl".toList),
   (Converter.sdist, ".tar.gz".toList),
   (Converter.sdist, ".zip".toList)]

/-- Outcome of one `_download_and_parse(url=..., converter=...)` call:
either a sequence of extracted dependency strings, a `FileNotFoundError`
(whose message `e.args[0]` is carried), or any other exception. -/
inductive DownloadResult
  | extracted : List (List Char) → DownloadResult
  | fileNotFound : List Char → DownloadResult
  | failed : List Char → DownloadResult
deriving DecidableEq, Repr

/-- Observable behaviour of one `_get_deps_from_links` call: the
`(converter, url)` download attempts in order, the warnings logged, and the
returned value (`Except.error` models an uncaught exception). -/
structure ExtractRun where
  attempts : List (Converter × List Char)
  warnings : List (List Char)
  result : Except (List Char) (List (List Char))
deriving Repr

/-- Inner loop of `_get_deps_from_links` for one `(converter, ext)` rule:
walk the candidate links, skip names not ending in `ext`, download otherwise;
a `FileNotFoundError` is logged and the walk continues, an extracted result
or any other exception ends the whole call (`some`), falling off the end
yields `none` (continue with the next rule). -/
def tryRule (dl : Converter × List Char → DownloadResult) (conv : Converter)
    (ext : List Char) :
    List Link →
    List (Converter × List Char) × List (List Char) ×
      Option (Except (List Char) (List (List Char)))
  | [] => ([], [], none)
  | l :: ls =>
    if endsWith ext l.name then
      match dl (conv, l.url) with
      | DownloadResult.extracted deps => ([(conv, l.url)], [], some (Except.ok deps))
      | DownloadResult.fileNotFound m =>
        let (a, w, r) := tryRule dl conv ext ls
        ((conv, l.url) :: a, m :: w, r)
      | DownloadResult.failed m => ([(conv, l.url)], [], some (Except.error m))
    else tryRule dl conv ext ls

/-- Outer loop of `_get_deps_from_links`: the rules in priority order; if no
rule produces a result the function returns the empty tuple. -/
def runRules (dl : Converter × List Char → DownloadResult) (links : List Link) :
    List (Converter × List Char) → ExtractRun
  | [] => ⟨[], [], Except.ok []⟩
  | (conv, ext) :: rest =>
    match tryRule dl conv ext links with
    | (a, w, some res) => ⟨a, w, res⟩
    | (a, w, none) =>
      let run := runRules dl links rest
      ⟨a ++ run.attempts, w ++ run.warnings, run.result⟩

/-- The candidate filter of `_get_deps_from_links` (source lines 189-196):
keep the links whose parsed name canonicalizes to the requested `name`
verbatim and whose parsed version equals the requested `version`. -/
def goodLinks (name version : List Char) (links : List Link) : List Link :=
  links.filter (fun l =>
    let nv := parse_name l.name
    canonicalize_name nv.1 = name ∧ nv.2 = version)

/-- `WarehouseSimpleRepo._get_deps_from_links` (source lines 176-219), taking
the cached/fetched link list and the download-and-parse behaviour as inputs.
-/
def get_deps_from_links (dl : Converter × List Char → DownloadResult)
    (name version : List Char) (links : List Link) : ExtractRun :=
  runRules dl (goodLinks name version links) rules

/-- Numeric value of a digit run. -/
def natOfDigits (ds : List Char) : Nat :=
  ds.foldl (fun n c => n * 10 + (c.toNat - 48)) 0

/-- Drop the trailing zero components of a release segment list, so that
equal versions (e.g. `1.0` and `1.0.0`) get equal representations. -/
def dropTrailingZeros (l : List Nat) : List Nat :=
  (l.reverse.dropWhile (· = 0)).reverse

/-- Modelled from the spec: the version value type (an external collaborator:
`Release.version`, "parsed, comparable, supports prerelease classification").
`release` is the numeric dotted part with trailing zeros normalized away;
`pre` is `some (phase, number)` for an alpha/beta/rc/dev marker and `none`
for a final release. -/
structure PyVersion where
  release : List Nat
  pre : Option (Nat × Nat)
deriving DecidableEq, Repr

/-- Modelled from the spec: rank of a prerelease phase word
(dev < alpha < beta < release candidate). -/
def phaseRank (w : List Char) : Nat :=
  let w := w.map Char.toLower
  if w = "dev".toList then 0
  else if w = "a".toList ∨ w = "alpha".toList then 1
  else if w = "b".toList ∨ w = "beta".toList then 2
  else if w = "c".toList ∨ w = "rc".toList ∨ w = "pre".toList ∨ w = "preview".toList then 3
  else 1

/-- Modelled from the spec: parse the dot-separated segments of a version
string; purely numeric segments form the release part, and the first segment
with non-digit characters starts a prerelease marker. -/
def parseSegs : List (List Char) → List Nat × Option (Nat × Nat)
  | [] => ([], none)
  | seg :: rest =>
    if seg ≠ [] ∧ seg.all Char.isDigit then
      let rp := parseSegs rest
      (natOfDigits seg :: rp.1, rp.2)
    else
      let dpre := seg.takeWhile Char.isDigit
      let t := seg.dropWhile Char.isDigit
      let letters := t.takeWhile Char.isAlpha
      let dnum := (t.drop letters.length).takeWhile Char.isDigit
      ((if dpre = [] then [] else [natOfDigits dpre]),
       some (phaseRank letters, natOfDigits dnum))

/-- Modelled from the spec: parse a version string into a comparable value. -/
def parseVersion (s : List Char) : PyVersion :=
  let rp := parseSegs (splitOnChar '.' s)
  ⟨dropTrailingZeros rp.1, rp.2⟩

/-- Modelled from the spec: `version.is_prerelease`. -/
def isPrerelease (v : PyVersion) : Bool :=
  v.pre.isSome

example : parseVersion "2.0a1".toList = ⟨[2], some (1, 1)⟩ := by decide
example : parseVersion "1.0".toList = ⟨[1], none⟩ := by decide
example : parseVersion "1.0.0".toList = ⟨[1], none⟩ := by decide
example : parseVersion "0.10.1".toList = ⟨[0, 10, 1], none⟩ := by decide
example : isPrerelease (parseVersion "2.0rc3".toList) = true := by decide
example : isPrerelease (parseVersion "2.0".toList) = false := by decide

/-- Lexicographic comparison of normalized release segment lists. -/
def cmpNatList : List Nat → List Nat → Ordering
  | [], [] => Ordering.eq
  | [], _ :: _ => Ordering.lt
  | _ :: _, [] => Ordering.gt
  | a :: as, b :: bs => (compare a b).then (cmpNatList as bs)

/-- Comparison of prerelease markers: a final release is greater than any
prerelease; prereleases compare by phase then number. -/
def cmpPre : Option (Nat × Nat) → Option (Nat × Nat) → Ordering
  | none, none => Ordering.eq
  | none, some _ => Ordering.gt
  | some _, none => Ordering.lt
  | some p, some q => (compare p.1 q.1).then (compare p.2 q.2)

/-- Modelled from the spec: total comparison of version values. -/
def cmpVer (a b : PyVersion) : Ordering :=
  (cmpNatList a.release b.release).then (cmpPre a.pre b.pre)

example : cmpVer (parseVersion "1.0".toList) (parseVersion "1.0.0".toList) = Ordering.eq := by decide
example : cmpVer (parseVersion "2.0a1".toList) (parseVersion "2.0".toList) = Ordering.lt := by decide
example : cmpVer (parseVersion "1.9".toList) (parseVersion "1.10".toList) = Ordering.lt := by decide

/-- One release object as built by `get_releases` (source lines 91-98).
`version` keeps the raw version string; `python` is the
`' || '`-joined interpreter constraint; `hashes` the accumulated digests.
The constant epoch timestamp and the verbatim `raw_name`/`extra`
passthroughs of the source constructor carry no information and are
omitted. -/
structure Release where
  version : List Char
  python : List Char
  hashes : List (List Char)
deriving DecidableEq, Repr

/-- Modelled from the spec: releases order by their parsed version;
`a` sorts before `b` in the descending sort when `version(b) ≤ version(a)`.
-/
def relGe (a b : Release) : Bool :=
  cmpVer (parseVersion b.version) (parseVersion a.version) ≠ Ordering.gt

/-- Stable ordered insert for the descending release sort. -/
def ordInsertRel (a : Release) : List Release → List Release
  | [] => [a]
  | b :: bs => if relGe a b then a :: b :: bs else b :: ordInsertRel a bs

/-- `releases.sort(reverse=True)`: stable descending sort by version. -/
def sortRelDesc (l : List Release) : List Release :=
  l.foldr ordInsertRel []

/-- Per-version accumulator of `releases_info` (source lines 79-84). -/
structure RelInfo where
  hashes : List (List Char)
  pythons : List (List Char)
deriving DecidableEq, Repr

/-- Python truthiness of `link['digest']` (`None` and `''` are falsy). -/
def digestTruthy : Option (List Char) → Bool
  | none => false
  | some d => d ≠ []

/-- One step of the `releases_info` accumulation: append the link's digest
and python constraint (when truthy) to its version's entry, creating the
entry at the end of the (insertion-ordered) dict when absent. -/
def updateInfo (ver : List Char) (l : Link) :
    List (List Char × RelInfo) → List (List Char × RelInfo)
  | [] =>
    [(ver, ⟨(if digestTruthy l.digest then [l.digest.getD []] else []),
            (if l.python ≠ [] then [l.python] else [])⟩)]
  | (k, i) :: rest =>
    if k = ver then
      (k, ⟨i.hashes ++ (if digestTruthy l.digest then [l.digest.getD []] else []),
           i.pythons ++ (if l.python ≠ [] then [l.python] else [])⟩) :: rest
    else (k, i) :: updateInfo ver l rest

/-- First loop of `get_releases` (source lines 71-84): group the links by
parsed version, skipping links whose canonicalized parsed name differs from
`dep.name` and links with an empty parsed version. -/
def releasesInfoAux (depName : List Char) (acc : List (List Char × RelInfo)) :
    List Link → List (List Char × RelInfo)
  | [] => acc
  | l :: ls =>
    let nv := parse_name l.name
    if canonicalize_name nv.1 ≠ depName then releasesInfoAux depName acc ls
    else if nv.2 = [] then releasesInfoAux depName acc ls
    else releasesInfoAux depName (updateInfo nv.2 l acc) ls

/-- The `releases_info` dict built by `get_releases`, as an insertion-ordered
association list. -/
def releasesInfo (depName : List Char) (links : List Link) :
    List (List Char × RelInfo) :=
  releasesInfoAux depName [] links

/-- Second loop of `get_releases` (source lines 87-106): build a `Release`
per accumulated version; a prerelease goes to the side list and is kept out
of the main list when prereleases are disabled at both repository
(`self.prereleases`) and query (`dep.prereleases`) level.  The `Option
Release` component tracks the loop variable `release`: `none` means it was
never assigned. -/
def buildReleases (selfPre depPre : Bool) :
    List (List Char × RelInfo) →
      List Release × List Release × Option Release
  | [] => ([], [], none)
  | (ver, i) :: rest =>
    let rel : Release := ⟨ver, joinSep " || ".toList i.pythons, i.hashes⟩
    let rp := buildReleases selfPre depPre rest
    if isPrerelease (parseVersion ver) then
      if ¬ selfPre ∧ ¬ depPre then (rp.1, rel :: rp.2.1, (rp.2.2).getD rel |> some)
      else (rel :: rp.1, rel :: rp.2.1, (rp.2.2).getD rel |> some)
    else (rel :: rp.1, rp.2.1, (rp.2.2).getD rel |> some)

/-- The Python error message raised when the loop variable `release` is read
without ever having been assigned. -/
def unboundLocalMsg : List Char :=
  "UnboundLocalError: local variable release referenced before assignment".toList

/-- `WarehouseSimpleRepo.get_releases` (source lines 60-114), taking the
cached/fetched link list as input.  After the loops the source evaluates
`if not release and prereleases:` — `release` is the loop variable of the
second loop, so when that loop ran zero iterations the read raises
`UnboundLocalError`, and when it ran, `release` holds the last built
`Release` object, which (as a plain object without `__bool__`/`__len__`) is
always truthy, so `not release` is false and the fallback branch
`releases = prereleases` is never taken. -/
def get_releases (selfPre depPre : Bool) (depName : List Char)
    (links : List Link) : Except (List Char) (List Release) :=
  let built := buildReleases selfPre depPre (releasesInfo depName links)
  match built.2.2 with
  | none => Except.error unboundLocalMsg
  | some _ => Except.ok (sortRelDesc built.1)

/-- A plain sdist link with no digest and an unconstrained interpreter, as
`_get_links` would yield for an anchor without extra attributes. -/
def plainLink (fname : List Char) : Link :=
  ⟨fname, "https://example.org/".toList ++ fname, "*".toList, none⟩

example :
    get_releases false false "foo".toList [plainLink "foo-2.0a1.tar.gz".toList] =
      Except.ok [] := by rfl

example :
    get_releases false false "foo".toList [] = Except.error unboundLocalMsg := by rfl

example :
    get_releases true false "foo".toList [plainLink "foo-2.0a1.tar.gz".toList] =
      Except.ok [⟨"2.0a1".toList, "*".toList, []⟩] := by rfl

example :
    (get_releases false false "foo".toList
        [plainLink "foo-1.0.tar.gz".toList, plainLink "foo-1.0.0.tar.gz".toList]).map
        (List.map Release.version) =
      Except.ok ["1.0".toList, "1.0.0".toList] := by rfl

/-- Requirement object produced by dependency conversion.  Modelled from the
spec: `_convert_deps` lives in the base class `WarehouseBaseRepo`, outside
this file; it turns each cached/extracted dependency specification string
into a requirement object. -/
structure Req where
  raw : List Char
deriving DecidableEq, Repr

/-- Modelled from the spec: the `_convert_deps` conversion applied to a
dependency-specification sequence. -/
def convert_deps (deps : List (List Char)) : List Req :=
  deps.map Req.mk

/-- The single-element sentinel sequence containing one empty string, which
the dependency cache uses for "computed, zero dependencies". -/
def depsSentinel : List (List Char) :=
  [[]]

/-- Observable behaviour of one `get_dependencies` call: the returned
requirements, whether the live extraction path ran, and the value written
back to the cache (if any). -/
structure DepsCall where
  result : List Req
  liveFetched : Bool
  writeBack : Option (List (List Char))
deriving DecidableEq, Repr

/-- `WarehouseSimpleRepo.get_dependencies` (source lines 116-127), taking the
current cache entry for `(name, version)` (`none` = absent) and the
dependency sequence the live `_get_deps_from_links` path would produce. -/
def get_dependencies (cached : Option (List (List Char)))
    (live : List (List Char)) : DepsCall :=
  match cached with
  | none => ⟨convert_deps live, true, some live⟩
  | some deps =>
    if deps = depsSentinel then ⟨[], false, none⟩
    else ⟨convert_deps deps, false, none⟩

/-- Errors raised by `_get_links` on a non-success HTTP status. -/
inductive FetchError
  | packageNotFound (package url : List Char)
  | httpError (status : Nat)
deriving DecidableEq, Repr

/-- Characters that `urllib.parse.quote` leaves unescaped with the default
`safe='/'`. -/
def quoteSafe (c : Char) : Bool :=
  c.isAlphanum ∨ c = '_' ∨ c = '.' ∨ c = '-' ∨ c = '~' ∨ c = '/'

/-- Hex digit for a nibble. -/
def hexDigit (n : Nat) : Char :=
  if n < 10 then Char.ofNat (48 + n) else Char.ofNat (55 + n)

/-- Modelled from the spec: `urllib.parse.quote` (external collaborator) on
the characters appearing in package names: unsafe characters are
percent-encoded. -/
def quoteStr (s : List Char) : List Char :=
  s.flatMap (fun c =>
    if quoteSafe c then [c]
    else ['%', hexDigit (c.toNat / 16 % 16), hexDigit (c.toNat % 16)])

/-- Modelled from the spec: `posixpath.join(a, b)` for the non-absolute `b`
produced by quoting a package name. -/
def posixJoin (a b : List Char) : List Char :=
  if a = [] then b
  else if a.getLast? = some '/' then a ++ b
  else a ++ '/' :: b

/-- The index page URL requested by `_get_links` (source line 133). -/
def depUrl (url name : List Char) : List Char :=
  posixJoin url (quoteStr name) ++ "/".toList

/-- Status handling of `_get_links` (source lines 132-137): the observable
request trace (exactly one GET, against the joined URL) together with the
outcome of the status checks: a 404 raises `PackageNotFoundError` with the
package name and the attempted URL; `response.raise_for_status()` raises a
generic `requests.HTTPError` for any other 4xx/5xx status; otherwise the
anchor scan runs. -/
def get_links_fetch (url name : List Char) (status : Nat) :
    List (List Char) × Except FetchError Unit :=
  ([depUrl url name],
   if status = 404 then Except.error (FetchError.packageNotFound name (depUrl url name))
   else if 400 ≤ status ∧ status ≤ 599 then Except.error (FetchError.httpError status)
   else Except.ok ())

/-! ### Basic lemmas about the string primitives -/

theorem splitOnChar_ne_nil (c : Char) : (s : List Char) → splitOnChar c s ≠ []
  | [] => by simp [splitOnChar]
  | x :: xs => by
    unfold splitOnChar
    cases h : splitOnChar c xs with
    | nil => simp
    | cons y ys =>
      by_cases hx : x = c <;> simp [hx]

theorem splitOnChar_of_not_mem {c : Char} {s : List Char} (h : c ∉ s) :
    splitOnChar c s = [s] := by
  induction s with
  | nil => rfl
  | cons x xs ih =>
    have hx : x ≠ c := fun he => h (he ▸ List.mem_cons_self x xs)
    have hxs : c ∉ xs := fun hm => h (List.mem_cons_of_mem x hm)
    unfold splitOnChar
    rw [ih hxs]
    simp [hx]

theorem splitOnChar_append_cons {c : Char} {n : List Char} (v : List Char)
    (h : c ∉ n) : splitOnChar c (n ++ c :: v) = n :: splitOnChar c v := by
  induction n with
  | nil =>
    show splitOnChar c (c :: v) = [] :: splitOnChar c v
    conv_lhs => rw [splitOnChar]
    cases hv : splitOnChar c v with
    | nil => exact absurd hv (splitOnChar_ne_nil c v)
    | cons y ys => simp
  | cons x n' ih =>
    have hx : x ≠ c := fun he => h (he ▸ List.mem_cons_self x n')
    have hn' : c ∉ n' := fun hm => h (List.mem_cons_of_mem x hm)
    show splitOnChar c (x :: (n' ++ c :: v)) = (x :: n') :: splitOnChar c v
    conv_lhs => rw [splitOnChar]
    rw [ih hn']
    simp [hx]

theorem joinSep_splitOnChar (c : Char) : (s : List Char) →
    joinSep [c] (splitOnChar c s) = s
  | [] => rfl
  | x :: xs => by
    have ih := joinSep_splitOnChar c xs
    unfold splitOnChar
    cases h : splitOnChar c xs with
    | nil => exact absurd h (splitOnChar_ne_nil c xs)
    | cons y ys =>
      rw [h] at ih
      by_cases hx : x = c
      · subst hx
        simp only [if_pos rfl]
        cases ys with
        | nil => simpa [joinSep] using congrArg (x :: ·) ih
        | cons z zs => simpa [joinSep] using congrArg (x :: ·) ih
      · simp only [if_neg hx]
        cases ys with
        | nil =>
          simp only [joinSep] at ih ⊢
          rw [ih]
        | cons z zs =>
          simp only [joinSep] at ih ⊢
          simp [ih]

theorem dropWhile_eq_self_of_not {p : Char → Bool} {s : List Char}
    (h : ∀ x ∈ s, p x = false) : s.dropWhile p = s := by
  cases s with
  | nil => rfl
  | cons x xs =>
    rw [List.dropWhile_cons_of_neg]
    simp [h x (List.mem_cons_self x xs)]

theorem trimWs_eq_self {s : List Char} (h : ∀ x ∈ s, pyIsSpace x = false) :
    trimWs s = s := by
  unfold trimWs
  rw [dropWhile_eq_self_of_not h,
      dropWhile_eq_self_of_not (fun x hx => h x (List.mem_reverse.mp hx)),
      List.reverse_reverse]

theorem endsWith_false_of_not_mem {t s : List Char} {c : Char}
    (hct : c ∈ t) (hcs : c ∉ s) : endsWith t s = false := by
  unfold endsWith
  cases h : t.isSuffixOf s with
  | false => rfl
  | true =>
    have hsuf : t <:+ s := List.isSuffixOf_iff_suffix.mp h
    exact absurd (hsuf.subset hct) hcs

theorem rsplitHead_of_not_mem {c : Char} {s : List Char} (h : c ∉ s) (n : Nat) :
    rsplitHead c n s = s := by
  unfold rsplitHead
  rw [splitOnChar_of_not_mem h]
  simp

theorem rsplitHeadChecked_eq (c : Char) (n : Nat) (s : List Char) :
    rsplitHeadChecked c n s = some (rsplitHead c n s) := by
  unfold rsplitHeadChecked rsplitHead
  cases h : splitOnChar c s with
  | nil => exact absurd h (splitOnChar_ne_nil c s)
  | cons y ys =>
    by_cases hl : (y :: ys).length ≤ n + 1
    · rw [if_pos hl, if_pos hl]; rfl
    · rw [if_neg hl, if_neg hl]

/-! ### C5: `_parse_name` is pure and total -/

/-- C5: `_parse_name` is a pure total function: on every input string —
including the empty string — every internal operation is defined (no raised
exception), a `(name, version)` pair of strings is returned, and on the empty
input both components are empty. -/
theorem claim_C5_parse_name_total :
    (∀ fname : List Char, parse_name_checked fname = some (parse_name fname)) ∧
      parse_name [] = ([], []) := by
  constructor
  · intro fname
    unfold parse_name_checked parse_name
    dsimp only
    simp only [rsplitHeadChecked_eq]
    by_cases hw : endsWith ".whl".toList (trimWs fname) = true
    · rw [if_pos hw, if_pos hw]
    · rw [if_neg hw, if_neg hw]
      by_cases ht : endsWith ".tar".toList (rsplitHead '.' 1 (trimWs fname)) = true
      · rw [if_pos ht, if_pos ht]
      · rw [if_neg ht, if_neg ht]
  · rfl

/-! ### C3: the wheel-convention round-trip -/

/-- C3 counterexample: for the wheel filename `foo-1.0-py3-none-any.whl` the
parsed pair is `(foo, 1.0)`, but re-parsing the reconstruction `foo-1.0`
yields `(foo, 1)` — the reconstruction is parsed by the source-archive
convention, which strips `.0` as a file extension, so the round-trip claim
fails. -/
theorem claim_C3_counterexample :
    parse_name "foo-1.0-py3-none-any.whl".toList = ("foo".toList, "1.0".toList) ∧
      parse_name ("foo".toList ++ '-' :: "1.0".toList) = ("foo".toList, "1".toList) ∧
      ("foo".toList, ("1".toList : List Char)) ≠ ("foo".toList, "1.0".toList) := by
  refine ⟨by decide, by decide, by decide⟩

/-- C3 amended: the round-trip holds for wheel-parsed pairs whose name is
nonempty, begins with an ASCII letter, and contains no dot (a wheel-parsed
name never contains a hyphen), and whose version contains no dot and does not
begin with an ASCII letter (and neither component contains a character of
the Unicode whitespace class stripped by `str.strip()`):
re-parsing `<name>-<version>` then returns exactly `(name, version)`, and
hence is stable under any number of repeated applications.  Dotted versions
do not round-trip (see the counterexample). -/
theorem claim_C3_amended (n v : List Char)
    (hn : n ≠ [])
    (hna : (n.headD ' ').isAlpha = true)
    (hnh : '-' ∉ n) (hnd : '.' ∉ n)
    (hvd : '.' ∉ v)
    (hva : ∀ c, v.head? = some c → c.isAlpha = false)
    (hnw : ∀ c ∈ n, pyIsSpace c = false)
    (hvw : ∀ c ∈ v, pyIsSpace c = false) :
    parse_name (n ++ '-' :: v) = (n, v) := by
  have hsw : ∀ c ∈ n ++ '-' :: v, pyIsSpace c = false := by
    intro c hc
    rcases List.mem_append.mp hc with h | h
    · exact hnw c h
    · rcases List.mem_cons.mp h with h | h
      · subst h; decide
      · exact hvw c h
  have hdot : '.' ∉ n ++ '-' :: v := by
    intro hmem
    rcases List.mem_append.mp hmem with h | h
    · exact hnd h
    · rcases List.mem_cons.mp h with h | h
      · exact absurd h (by decide)
      · exact hvd h
  have htrim : trimWs (n ++ '-' :: v) = n ++ '-' :: v := trimWs_eq_self hsw
  have hwhl : endsWith ".whl".toList (n ++ '-' :: v) = false :=
    endsWith_false_of_not_mem (by decide) hdot
  have htar : endsWith ".tar".toList (n ++ '-' :: v) = false :=
    endsWith_false_of_not_mem (by decide) hdot
  have hsplit : splitOnChar '-' (n ++ '-' :: v) = n :: splitOnChar '-' v :=
    splitOnChar_append_cons v hnh
  have hrexn : rexWordMatch n = true := by
    cases n with
    | nil => exact absurd rfl hn
    | cons c cs => simpa [rexWordMatch, List.headD] using hna
  have hrexv : ∀ w ws, splitOnChar '-' v = w :: ws → rexWordMatch w = false := by
    intro w ws hsp
    cases v with
    | nil =>
      simp only [splitOnChar] at hsp
      cases hsp
      rfl
    | cons x xs =>
      have hne := splitOnChar_ne_nil '-' xs
      revert hsp
      conv_lhs => rw [splitOnChar]
      cases hx : splitOnChar '-' xs with
      | nil => exact absurd hx hne
      | cons y ys =>
        by_cases hxc : x = '-'
        · simp only [if_pos hxc]
          intro hsp
          cases hsp
          rfl
        · simp only [if_neg hxc]
          intro hsp
          cases hsp
          have := hva x rfl
          simp [rexWordMatch, this]
  unfold parse_name
  dsimp only
  rw [htrim, hwhl]
  simp only [Bool.false_eq_true, if_false]
  rw [rsplitHead_of_not_mem hdot, htar]
  simp only [Bool.false_eq_true, if_false, hsplit]
  cases hv : splitOnChar '-' v with
  | nil => exact absurd hv (splitOnChar_ne_nil '-' v)
  | cons w ws =>
    rw [List.takeWhile_cons_of_pos hrexn, List.takeWhile_cons_of_neg (by simp [hrexv w ws hv])]
    simp only [List.length_cons, List.length_nil, Nat.zero_add, List.drop_succ_cons,
      List.drop_zero]
    rw [← hv, joinSep_splitOnChar]
    rfl

/-- Witness for C3 amended at `name = foo`, `version = 2rc1`:
`parse_name (foo-2rc1) = (foo, 2rc1)`. -/
theorem claim_C3_amended_witness :
    parse_name ("foo".toList ++ '-' :: "2rc1".toList) = ("foo".toList, "2rc1".toList) :=
  claim_C3_amended "foo".toList "2rc1".toList (by decide) (by decide) (by decide)
    (by decide) (by decide) (by decide) (by decide) (by decide)

/-! ### C4: the dependency cache is read-through -/

/-- C4: `get_dependencies` is read-through on the dependency cache: an
absent entry (`None`) triggers the live extraction followed by a write-back
of the computed value; a present entry equal to the one-empty-string
sentinel means "computed, zero dependencies" and yields an empty tuple with
no live fetch; any other present entry short-circuits the network path and
is converted and returned as authoritative. -/
theorem claim_C4_cache_read_through (cached : Option (List (List Char)))
    (live : List (List Char)) :
    (cached = none →
        get_dependencies cached live = ⟨convert_deps live, true, some live⟩) ∧
      (cached = some depsSentinel →
        get_dependencies cached live = ⟨[], false, none⟩) ∧
      (∀ deps, cached = some deps → deps ≠ depsSentinel →
        get_dependencies cached live = ⟨convert_deps deps, false, none⟩) := by
  refine ⟨fun h => ?_, fun h => ?_, fun deps h hne => ?_⟩
  · subst h; rfl
  · subst h; rfl
  · subst h
    unfold get_dependencies
    dsimp only
    rw [if_neg hne]

/-- Witness for C4 at concrete cache states: an absent entry, a sentinel
entry, and a one-element entry. -/
theorem claim_C4_cache_read_through_witness :
    get_dependencies none ["a".toList] = ⟨convert_deps ["a".toList], true, some ["a".toList]⟩ ∧
      get_dependencies (some depsSentinel) ["a".toList] = ⟨[], false, none⟩ ∧
      get_dependencies (some ["b".toList]) ["a".toList] =
        ⟨convert_deps ["b".toList], false, none⟩ :=
  ⟨(claim_C4_cache_read_through none ["a".toList]).1 rfl,
   (claim_C4_cache_read_through (some depsSentinel) ["a".toList]).2.1 rfl,
   (claim_C4_cache_read_through (some ["b".toList]) ["a".toList]).2.2 ["b".toList] rfl
     (by decide)⟩

/-! ### C8: status handling of the link fetch -/

/-- C8: the link fetch issues a single GET against the joined index URL; a
404 response raises `PackageNotFoundError` carrying exactly the package name
and the attempted URL; any other non-success status (4xx/5xx) raises the
generic transport error carrying that status unmodified; a success status
proceeds. -/
theorem claim_C8_status_handling (url name : List Char) (status : Nat) :
    (get_links_fetch url name status).1 = [depUrl url name] ∧
      (status = 404 →
        (get_links_fetch url name status).2 =
          Except.error (FetchError.packageNotFound name (depUrl url name))) ∧
      (status ≠ 404 → 400 ≤ status → status ≤ 599 →
        (get_links_fetch url name status).2 =
          Except.error (FetchError.httpError status)) ∧
      (status < 400 →
        (get_links_fetch url name status).2 = Except.ok ()) := by
  refine ⟨rfl, fun h => ?_, fun hne h4 h5 => ?_, fun hok => ?_⟩
  · unfold get_links_fetch
    rw [if_pos h]
  · unfold get_links_fetch
    rw [if_neg hne, if_pos ⟨h4, h5⟩]
  · unfold get_links_fetch
    have hne : status ≠ 404 := by omega
    have : ¬ (400 ≤ status ∧ status ≤ 599) := by omega
    rw [if_neg hne, if_neg this]

/-- Witness for C8 at a concrete URL, package name, and the statuses 404,
500 and 200. -/
theorem claim_C8_status_handling_witness :
    (get_links_fetch "https://pypi.org/simple".toList "foo".toList 404).2 =
        Except.error (FetchError.packageNotFound "foo".toList
          (depUrl "https://pypi.org/simple".toList "foo".toList)) ∧
      (get_links_fetch "https://pypi.org/simple".toList "foo".toList 500).2 =
        Except.error (FetchError.httpError 500) ∧
      (get_links_fetch "https://pypi.org/simple".toList "foo".toList 200).2 =
        Except.ok () :=
  ⟨(claim_C8_status_handling _ _ 404).2.1 rfl,
   (claim_C8_status_handling _ _ 500).2.2.1 (by decide) (by omega) (by omega),
   (claim_C8_status_handling _ _ 200).2.2.2 (by omega)⟩

/-! ### Step lemmas for the selector loops -/

theorem tryRule_nil (dl : Converter × List Char → DownloadResult)
    (conv : Converter) (ext : List Char) : tryRule dl conv ext [] = ([], [], none) :=
  rfl

theorem tryRule_skip {dl : Converter × List Char → DownloadResult}
    {conv : Converter} {ext : List Char} {l : Link} (ls : List Link)
    (h : endsWith ext l.name = false) :
    tryRule dl conv ext (l :: ls) = tryRule dl conv ext ls := by
  conv_lhs => rw [tryRule]
  rw [if_neg (by simp [h])]

theorem tryRule_hit_extracted {dl : Converter × List Char → DownloadResult}
    {conv : Converter} {ext : List Char} {l : Link} {ds : List (List Char)}
    (ls : List Link) (h : endsWith ext l.name = true)
    (hdl : dl (conv, l.url) = DownloadResult.extracted ds) :
    tryRule dl conv ext (l :: ls) = ([(conv, l.url)], [], some (Except.ok ds)) := by
  conv_lhs => rw [tryRule]
  rw [if_pos h, hdl]

theorem tryRule_hit_notFound {dl : Converter × List Char → DownloadResult}
    {conv : Converter} {ext : List Char} {l : Link} {m : List Char}
    (ls : List Link) (h : endsWith ext l.name = true)
    (hdl : dl (conv, l.url) = DownloadResult.fileNotFound m) :
    tryRule dl conv ext (l :: ls) =
      ((conv, l.url) :: (tryRule dl conv ext ls).1,
       m :: (tryRule dl conv ext ls).2.1, (tryRule dl conv ext ls).2.2) := by
  conv_lhs => rw [tryRule]
  rw [if_pos h, hdl]

theorem tryRule_hit_failed {dl : Converter × List Char → DownloadResult}
    {conv : Converter} {ext : List Char} {l : Link} {m : List Char}
    (ls : List Link) (h : endsWith ext l.name = true)
    (hdl : dl (conv, l.url) = DownloadResult.failed m) :
    tryRule dl conv ext (l :: ls) = ([(conv, l.url)], [], some (Except.error m)) := by
  conv_lhs => rw [tryRule]
  rw [if_pos h, hdl]

theorem runRules_nil (dl : Converter × List Char → DownloadResult)
    (links : List Link) : runRules dl links [] = ⟨[], [], Except.ok []⟩ :=
  rfl

theorem runRules_cons_some {dl : Converter × List Char → DownloadResult}
    {conv : Converter} {ext : List Char} {links : List Link}
    {a : List (Converter × List Char)} {w : List (List Char)}
    {res : Except (List Char) (List (List Char))}
    (rest : List (Converter × List Char))
    (h : tryRule dl conv ext links = (a, w, some res)) :
    runRules dl links ((conv, ext) :: rest) = ⟨a, w, res⟩ := by
  conv_lhs => rw [runRules]
  rw [h]

theorem runRules_cons_none {dl : Converter × List Char → DownloadResult}
    {conv : Converter} {ext : List Char} {links : List Link}
    {a : List (Converter × List Char)} {w : List (List Char)}
    (rest : List (Converter × List Char))
    (h : tryRule dl conv ext links = (a, w, none)) :
    runRules dl links ((conv, ext) :: rest) =
      ⟨a ++ (runRules dl links rest).attempts,
       w ++ (runRules dl links rest).warnings,
       (runRules dl links rest).result⟩ := by
  conv_lhs => rw [runRules]
  rw [h]

theorem runRules_no_links (dl : Converter × List Char → DownloadResult) :
    ∀ rs : List (Converter × List Char), runRules dl [] rs = ⟨[], [], Except.ok []⟩
  | [] => rfl
  | (conv, ext) :: rest => by
    rw [runRules_cons_none rest (tryRule_nil dl conv ext),
        runRules_no_links dl rest]
    rfl

/-! ### C2: priority order, first success wins -/

/-- The universal wheel link of the C2 scenario. -/
def pkgWheel : Link :=
  ⟨"pkg-1.0-py3-none-any.whl".toList,
   "https://example.org/pkg-1.0-py3-none-any.whl".toList, "*".toList, none⟩

/-- The source-archive link of the C2 scenario. -/
def pkgSdist : Link :=
  ⟨"pkg-1.0.tar.gz".toList,
   "https://example.org/pkg-1.0.tar.gz".toList, "*".toList, none⟩

/-- C2: `_get_deps_from_links` evaluates exactly the fixed priority table
(universal wheel, any-interpreter wheel, any wheel, tar.gz sdist, zip sdist)
in order, and the first successful extraction is returned immediately: with
candidate links `pkg-1.0-py3-none-any.whl` and `pkg-1.0.tar.gz` and a wheel
download that extracts `ds`, the run downloads the wheel only — the source
archive is never attempted — and returns `ds`. -/
theorem claim_C2_priority_order
    (dl : Converter × List Char → DownloadResult) (ds : List (List Char))
    (h : dl (Converter.wheel, pkgWheel.url) = DownloadResult.extracted ds) :
    rules = [(Converter.wheel, "py3-none-any.whl".toList),
             (Converter.wheel, "-none-any.whl".toList),
             (Converter.wheel, ".whl".toList),
             (Converter.sdist, ".tar.gz".toList),
             (Converter.sdist, ".zip".toList)] ∧
      get_deps_from_links dl "pkg".toList "1.0".toList [pkgWheel, pkgSdist] =
        ⟨[(Converter.wheel, pkgWheel.url)], [], Except.ok ds⟩ := by
  refine ⟨rfl, ?_⟩
  have hgl : goodLinks "pkg".toList "1.0".toList [pkgWheel, pkgSdist] =
      [pkgWheel, pkgSdist] := by decide
  unfold get_deps_from_links
  rw [hgl]
  show runRules dl [pkgWheel, pkgSdist]
      ((Converter.wheel, "py3-none-any.whl".toList) :: _) = _
  exact runRules_cons_some _ (tryRule_hit_extracted _ (by decide) h)

/-- Witness for C2 with a download environment that extracts a single
requirement string from every wheel. -/
theorem claim_C2_priority_order_witness :
    get_deps_from_links
        (fun p => if p.1 = Converter.wheel then DownloadResult.extracted ["six".toList]
                  else DownloadResult.failed "unreachable".toList)
        "pkg".toList "1.0".toList [pkgWheel, pkgSdist] =
      ⟨[(Converter.wheel, pkgWheel.url)], [], Except.ok ["six".toList]⟩ :=
  (claim_C2_priority_order _ ["six".toList] rfl).2

/-! ### C6: `FileNotFoundError` is recoverable, everything else propagates -/

/-- The universal wheel link of the C6 scenario. -/
def fooWheel : Link :=
  ⟨"foo-1.0-py3-none-any.whl".toList,
   "https://example.org/foo-1.0-py3-none-any.whl".toList, "*".toList, none⟩

/-- The source-archive link of the C6 scenario. -/
def fooSdist : Link :=
  ⟨"foo-1.0.tar.gz".toList,
   "https://example.org/foo-1.0.tar.gz".toList, "*".toList, none⟩

/-- C6: during dependency extraction a `FileNotFoundError` from download or
conversion is recoverable — logged as a warning, with the selector moving on
to the next candidate link or rule (the wheel, matching three wheel rules, is
retried three times before the tarball succeeds) — while any other exception
propagates immediately and aborts the extraction with no further candidates
tried. -/
theorem claim_C6_recoverable_not_found
    (dl : Converter × List Char → DownloadResult) (ds : List (List Char))
    (m : List Char)
    (h1 : dl (Converter.wheel, fooWheel.url) = DownloadResult.fileNotFound m)
    (h2 : dl (Converter.sdist, fooSdist.url) = DownloadResult.extracted ds) :
    get_deps_from_links dl "foo".toList "1.0".toList [fooWheel, fooSdist] =
        ⟨[(Converter.wheel, fooWheel.url), (Converter.wheel, fooWheel.url),
          (Converter.wheel, fooWheel.url), (Converter.sdist, fooSdist.url)],
         [m, m, m], Except.ok ds⟩ ∧
      (∀ (dl2 : Converter × List Char → DownloadResult) (m2 : List Char),
        dl2 (Converter.wheel, fooWheel.url) = DownloadResult.failed m2 →
        get_deps_from_links dl2 "foo".toList "1.0".toList [fooWheel, fooSdist] =
          ⟨[(Converter.wheel, fooWheel.url)], [], Except.error m2⟩) := by
  have hgl : goodLinks "foo".toList "1.0".toList [fooWheel, fooSdist] =
      [fooWheel, fooSdist] := by decide
  have hrules : rules = (Converter.wheel, "py3-none-any.whl".toList) ::
      (Converter.wheel, "-none-any.whl".toList) :: (Converter.wheel, ".whl".toList) ::
      (Converter.sdist, ".tar.gz".toList) :: [(Converter.sdist, ".zip".toList)] := rfl
  constructor
  · have hw1 : tryRule dl Converter.wheel "py3-none-any.whl".toList [fooWheel, fooSdist] =
        ([(Converter.wheel, fooWheel.url)], [m], none) := by
      rw [tryRule_hit_notFound [fooSdist] (by decide) h1, tryRule_skip [] (by decide),
        tryRule_nil]
    have hw2 : tryRule dl Converter.wheel "-none-any.whl".toList [fooWheel, fooSdist] =
        ([(Converter.wheel, fooWheel.url)], [m], none) := by
      rw [tryRule_hit_notFound [fooSdist] (by decide) h1, tryRule_skip [] (by decide),
        tryRule_nil]
    have hw3 : tryRule dl Converter.wheel ".whl".toList [fooWheel, fooSdist] =
        ([(Converter.wheel, fooWheel.url)], [m], none) := by
      rw [tryRule_hit_notFound [fooSdist] (by decide) h1, tryRule_skip [] (by decide),
        tryRule_nil]
    have hs : tryRule dl Converter.sdist ".tar.gz".toList [fooWheel, fooSdist] =
        ([(Converter.sdist, fooSdist.url)], [], some (Except.ok ds)) := by
      rw [tryRule_skip [fooSdist] (by decide), tryRule_hit_extracted [] (by decide) h2]
    unfold get_deps_from_links
    rw [hgl, hrules, runRules_cons_none _ hw1, runRules_cons_none _ hw2,
      runRules_cons_none _ hw3, runRules_cons_some _ hs]
    rfl
  · intro dl2 m2 hf
    have hw1 : tryRule dl2 Converter.wheel "py3-none-any.whl".toList [fooWheel, fooSdist] =
        ([(Converter.wheel, fooWheel.url)], [], some (Except.error m2)) :=
      tryRule_hit_failed [fooSdist] (by decide) hf
    unfold get_deps_from_links
    rw [hgl, hrules, runRules_cons_some _ hw1]

/-- Witness for C6 with a concrete download environment in which every wheel
download raises `FileNotFoundError` and the sdist extracts one requirement,
and another in which the wheel download raises a fatal error. -/
theorem claim_C6_recoverable_not_found_witness :
    get_deps_from_links
        (fun p => if p.1 = Converter.wheel then DownloadResult.fileNotFound "missing".toList
                  else DownloadResult.extracted ["six".toList])
        "foo".toList "1.0".toList [fooWheel, fooSdist] =
      ⟨[(Converter.wheel, fooWheel.url), (Converter.wheel, fooWheel.url),
        (Converter.wheel, fooWheel.url), (Converter.sdist, fooSdist.url)],
       ["missing".toList, "missing".toList, "missing".toList],
       Except.ok ["six".toList]⟩ :=
  (claim_C6_recoverable_not_found _ ["six".toList] "missing".toList rfl rfl).1

/-! ### C7: no successful extraction yields an empty sequence -/

theorem tryRule_no_result_of_notFound {dl : Converter × List Char → DownloadResult}
    (hdl : ∀ p, ∃ m, dl p = DownloadResult.fileNotFound m)
    (conv : Converter) (ext : List Char) :
    ∀ ls : List Link, (tryRule dl conv ext ls).2.2 = none
  | [] => rfl
  | l :: ls => by
    by_cases h : endsWith ext l.name = true
    · obtain ⟨m, hm⟩ := hdl (conv, l.url)
      rw [tryRule_hit_notFound ls h hm]
      exact tryRule_no_result_of_notFound hdl conv ext ls
    · rw [tryRule_skip ls (by simpa using h)]
      exact tryRule_no_result_of_notFound hdl conv ext ls

theorem runRules_result_of_notFound {dl : Converter × List Char → DownloadResult}
    {links : List Link}
    (hdl : ∀ p, ∃ m, dl p = DownloadResult.fileNotFound m) :
    ∀ rs : List (Converter × List Char), (runRules dl links rs).result = Except.ok []
  | [] => rfl
  | (conv, ext) :: rest => by
    rcases hte : tryRule dl conv ext links with ⟨a, w, r⟩
    have hr := tryRule_no_result_of_notFound hdl conv ext links
    rw [hte] at hr
    cases r with
    | some res => exact absurd hr (by simp)
    | none =>
      rw [runRules_cons_none rest hte]
      exact runRules_result_of_notFound hdl rest

/-- C7: when no priority rule yields a successful extraction — every
attempted download fails with `FileNotFoundError` — the call returns the
empty dependency sequence without raising; and when zero links match the
requested `(name, version)` pair, nothing is attempted and the empty
sequence is returned. -/
theorem claim_C7_no_success_empty :
    (∀ (dl : Converter × List Char → DownloadResult) (name version : List Char)
        (links : List Link),
      (∀ p, ∃ m, dl p = DownloadResult.fileNotFound m) →
      (get_deps_from_links dl name version links).result = Except.ok []) ∧
      (∀ (dl : Converter × List Char → DownloadResult) (name version : List Char)
          (links : List Link),
        (∀ l ∈ links,
          ¬ (canonicalize_name (parse_name l.name).1 = name ∧
              (parse_name l.name).2 = version)) →
        get_deps_from_links dl name version links = ⟨[], [], Except.ok []⟩) := by
  constructor
  · intro dl name version links hdl
    unfold get_deps_from_links
    exact runRules_result_of_notFound hdl rules
  · intro dl name version links h
    unfold get_deps_from_links
    have hempty : goodLinks name version links = [] := by
      unfold goodLinks
      rw [List.filter_eq_nil_iff]
      intro a ha
      simpa using h a ha
    rw [hempty]
    exact runRules_no_links dl rules

/-- Witness for C7: an all-`FileNotFoundError` environment over the foo
links, and a requested name matching no link. -/
theorem claim_C7_no_success_empty_witness :
    (get_deps_from_links (fun _ => DownloadResult.fileNotFound "gone".toList)
        "foo".toList "1.0".toList [fooWheel, fooSdist]).result = Except.ok [] ∧
      get_deps_from_links (fun _ => DownloadResult.extracted ["six".toList])
          "bar".toList "1.0".toList [fooWheel, fooSdist] =
        ⟨[], [], Except.ok []⟩ :=
  ⟨claim_C7_no_success_empty.1 _ _ _ _ (fun _ => ⟨"gone".toList, rfl⟩),
   claim_C7_no_success_empty.2 _ _ _ _ (by decide)⟩

/-! ### C1: the prerelease fallback is broken in the code -/

/-- C1 (code bug): on a link set whose only parsed version `2.0a1` classifies
as a prerelease, `get_releases` with prereleases disabled at both levels
returns the EMPTY tuple — the fallback `if not release and prereleases:`
tests the loop variable `release` (the last built, always-truthy `Release`
object) instead of the `releases` list, so the side list is never promoted —
and on a link set producing zero loop iterations the same check raises
`UnboundLocalError` instead of evaluating the fallback. -/
theorem claim_C1_fallback_code_bug :
    isPrerelease (parseVersion "2.0a1".toList) = true ∧
      get_releases false false "foo".toList [plainLink "foo-2.0a1.tar.gz".toList] =
        Except.ok [] ∧
      get_releases false false "foo".toList [] = Except.error unboundLocalMsg := by
  exact ⟨by decide, by rfl, by rfl⟩

/-! ### C10: canonicalization is asymmetric -/

theorem collapseSep_chars : ∀ (s : List Char), ∀ c ∈ collapseSep s,
    c = '-' ∨ isSep c = false
  | [] => by simp [collapseSep]
  | [d] => by
    intro c hc
    unfold collapseSep at hc
    by_cases hd : isSep d = true
    · rw [if_pos hd] at hc
      left
      simpa using hc
    · rw [if_neg (by simpa using hd)] at hc
      right
      have : c = d := by simpa using hc
      rw [this]
      simpa using hd
  | d :: e :: cs => by
    intro c hc
    unfold collapseSep at hc
    by_cases hd : isSep d = true
    · rw [if_pos hd] at hc
      by_cases he : isSep e = true
      · rw [if_pos he] at hc
        exact collapseSep_chars (e :: cs) c hc
      · rw [if_neg (by simpa using he)] at hc
        rcases List.mem_cons.mp hc with h | h
        · left; exact h
        · exact collapseSep_chars (e :: cs) c h
    · rw [if_neg (by simpa using hd)] at hc
      rcases List.mem_cons.mp hc with h | h
      · right
        rw [h]
        simpa using hd
      · exact collapseSep_chars (e :: cs) c h

theorem toLower_not_upper_underscore (x : Char) (hx : x ≠ '_') :
    (Char.toLower x).isUpper = false ∧ Char.toLower x ≠ '_' := by
  unfold Char.toLower
  dsimp only
  by_cases h : x.toNat ≥ 65 ∧ x.toNat ≤ 90
  · rw [if_pos h]
    obtain ⟨h1, h2⟩ := h
    set m := x.toNat with hm
    interval_cases m <;> exact ⟨by decide, by decide⟩
  · rw [if_neg h]
    refine ⟨?_, hx⟩
    cases hu : x.isUpper
    · rfl
    · exfalso
      apply h
      unfold Char.isUpper at hu
      rw [Bool.and_eq_true, decide_eq_true_eq, decide_eq_true_eq] at hu
      obtain ⟨ha, hb⟩ := hu
      have ha2 : (65 : UInt32) ≤ x.val := ha
      have hb2 : x.val ≤ (90 : UInt32) := hb
      rw [UInt32.le_def, BitVec.le_def] at ha2 hb2
      exact ⟨ha2, hb2⟩

theorem canonicalize_chars (s : List Char) :
    ∀ c ∈ canonicalize_name s, c.isUpper = false ∧ c ≠ '_' := by
  intro c hc
  unfold canonicalize_name at hc
  obtain ⟨x, hx, hxc⟩ := List.mem_map.mp hc
  have hne : x ≠ '_' := by
    rcases collapseSep_chars s x hx with h | h
    · rw [h]; decide
    · intro he
      rw [he] at h
      exact absurd h (by decide)
  rw [← hxc]
  exact toLower_not_upper_underscore x hne

theorem canonicalize_ne_of_bad {name : List Char}
    (h : ∃ c ∈ name, c.isUpper = true ∨ c = '_') :
    ∀ n, canonicalize_name n ≠ name := by
  intro n he
  obtain ⟨c, hc, hbad⟩ := h
  rw [← he] at hc
  have hcs := canonicalize_chars n c hc
  rcases hbad with hb | hb
  · rw [hcs.1] at hb
    cases hb
  · exact hcs.2 hb

theorem releasesInfoAux_no_match {depName : List Char}
    (h : ∀ n, canonicalize_name n ≠ depName) :
    ∀ (links : List Link) (acc : List (List Char × RelInfo)),
      releasesInfoAux depName acc links = acc
  | [], _ => rfl
  | l :: ls, acc => by
    conv_lhs => rw [releasesInfoAux]
    rw [if_pos (h _)]
    exact releasesInfoAux_no_match h ls acc

/-- C10 counterexample: for the requested (non-canonical) name `Foo`,
`get_releases` does not return an empty result — zero links match, the
release loop runs zero iterations, and the fallback check raises
`UnboundLocalError`. -/
theorem claim_C10_counterexample :
    get_releases false false "Foo".toList [plainLink "foo-1.0.tar.gz".toList] =
        Except.error unboundLocalMsg ∧
      get_deps_from_links (fun _ => DownloadResult.extracted ["six".toList])
          "Foo".toList "1.0".toList [plainLink "foo-1.0.tar.gz".toList] =
        ⟨[], [], Except.ok []⟩ := by
  exact ⟨by rfl, by rfl⟩

/-- C10 amended: both operations canonicalize only the name parsed from each
link filename and compare it verbatim to the requested name, so for a
requested name that is not in canonical form (it contains an ASCII uppercase
letter or an underscore) no link ever matches; dependency extraction then
returns an empty result without raising, while release aggregation reaches
the zero-iteration state in which its fallback check raises
`UnboundLocalError` rather than returning an empty tuple. -/
theorem claim_C10_amended (name version : List Char) (links : List Link)
    (dl : Converter × List Char → DownloadResult) (selfPre depPre : Bool)
    (h : ∃ c ∈ name, c.isUpper = true ∨ c = '_') :
    goodLinks name version links = [] ∧
      get_deps_from_links dl name version links = ⟨[], [], Except.ok []⟩ ∧
      get_releases selfPre depPre name links = Except.error unboundLocalMsg := by
  have hne := canonicalize_ne_of_bad h
  have hempty : goodLinks name version links = [] := by
    unfold goodLinks
    rw [List.filter_eq_nil_iff]
    intro l _
    simp only [decide_eq_true_eq, not_and]
    intro hcn
    exact absurd hcn (hne _)
  refine ⟨hempty, ?_, ?_⟩
  · unfold get_deps_from_links
    rw [hempty]
    exact runRules_no_links dl rules
  · unfold get_releases
    unfold releasesInfo
    rw [releasesInfoAux_no_match hne links []]
    rfl

/-- Witness for C10 amended at the uppercase-and-underscore name `Foo_Bar`. -/
theorem claim_C10_amended_witness :
    goodLinks "Foo_Bar".toList "1.0".toList [plainLink "foo-bar-1.0.tar.gz".toList] = [] ∧
      get_deps_from_links (fun _ => DownloadResult.extracted ["six".toList])
          "Foo_Bar".toList "1.0".toList [plainLink "foo-bar-1.0.tar.gz".toList] =
        ⟨[], [], Except.ok []⟩ ∧
      get_releases false false "Foo_Bar".toList [plainLink "foo-bar-1.0.tar.gz".toList] =
        Except.error unboundLocalMsg :=
  claim_C10_amended "Foo_Bar".toList "1.0".toList [plainLink "foo-bar-1.0.tar.gz".toList]
    (fun _ => DownloadResult.extracted ["six".toList]) false false
    ⟨'F', by decide, Or.inl (by decide)⟩

/-! ### Order lemmas for the modelled version comparison -/

theorem cmpNatList_eq_iff : ∀ a b : List Nat, cmpNatList a b = Ordering.eq ↔ a = b
  | [], [] => by simp [cmpNatList]
  | [], _ :: _ => by simp [cmpNatList]
  | _ :: _, [] => by simp [cmpNatList]
  | a :: as, b :: bs => by
    simp [cmpNatList, Ordering.then_eq_eq, Nat.compare_eq_eq, cmpNatList_eq_iff as bs]

theorem cmpNatList_lt_trans :
    ∀ (a b c : List Nat), cmpNatList a b = Ordering.lt → cmpNatList b c = Ordering.lt →
      cmpNatList a c = Ordering.lt
  | a, [], _ => by
    intro h1 _
    exfalso
    cases a <;> simp [cmpNatList] at h1
  | [], _ :: _, c => by
    intro _ h2
    cases c with
    | nil => simp [cmpNatList] at h2
    | cons z zs => simp [cmpNatList]
  | x :: xs, y :: ys, c => by
    intro h1 h2
    cases c with
    | nil => simp [cmpNatList] at h2
    | cons z zs =>
      simp only [cmpNatList, Ordering.then_eq_lt, Nat.compare_eq_lt,
        Nat.compare_eq_eq] at h1 h2 ⊢
      rcases h1 with h1 | ⟨he1, h1⟩ <;> rcases h2 with h2 | ⟨he2, h2⟩
      · exact Or.inl (Nat.lt_trans h1 h2)
      · exact Or.inl (he2 ▸ h1)
      · exact Or.inl (he1 ▸ h2)
      · exact Or.inr ⟨he1.trans he2, cmpNatList_lt_trans xs ys zs h1 h2⟩

theorem cmpNatList_gt_iff_lt : ∀ a b : List Nat,
    cmpNatList a b = Ordering.gt ↔ cmpNatList b a = Ordering.lt
  | [], [] => by simp [cmpNatList]
  | [], _ :: _ => by simp [cmpNatList]
  | _ :: _, [] => by simp [cmpNatList]
  | a :: as, b :: bs => by
    simp only [cmpNatList, Ordering.then_eq_gt, Ordering.then_eq_lt, Nat.compare_eq_gt,
      Nat.compare_eq_lt, Nat.compare_eq_eq, cmpNatList_gt_iff_lt as bs]
    constructor
    · rintro (h | ⟨he, hr⟩)
      · exact Or.inl h
      · exact Or.inr ⟨he.symm, hr⟩
    · rintro (h | ⟨he, hr⟩)
      · exact Or.inl h
      · exact Or.inr ⟨he.symm, hr⟩

theorem cmpPre_eq_iff : ∀ p q : Option (Nat × Nat), cmpPre p q = Ordering.eq ↔ p = q
  | none, none => by simp [cmpPre]
  | none, some _ => by simp [cmpPre]
  | some _, none => by simp [cmpPre]
  | some (p1, p2), some (q1, q2) => by
    simp [cmpPre, Ordering.then_eq_eq, Nat.compare_eq_eq]

theorem cmpPre_lt_trans : ∀ {p q r : Option (Nat × Nat)},
    cmpPre p q = Ordering.lt → cmpPre q r = Ordering.lt → cmpPre p r = Ordering.lt := by
  intro p q r h1 h2
  match p, q, r with
  | none, none, _ => simp [cmpPre] at h1
  | none, some _, _ => simp [cmpPre] at h1
  | some _, none, none => simp [cmpPre] at h2
  | some _, none, some _ => simp [cmpPre] at h2
  | some _, some _, none => simp [cmpPre]
  | some (p1, p2), some (q1, q2), some (r1, r2) =>
    simp only [cmpPre, Ordering.then_eq_lt, Nat.compare_eq_lt, Nat.compare_eq_eq] at h1 h2 ⊢
    omega

theorem cmpPre_gt_iff_lt : ∀ p q : Option (Nat × Nat),
    cmpPre p q = Ordering.gt ↔ cmpPre q p = Ordering.lt
  | none, none => by simp [cmpPre]
  | none, some _ => by simp [cmpPre]
  | some _, none => by simp [cmpPre]
  | some (p1, p2), some (q1, q2) => by
    simp only [cmpPre, Ordering.then_eq_gt, Ordering.then_eq_lt, Nat.compare_eq_gt,
      Nat.compare_eq_lt, Nat.compare_eq_eq]
    omega

theorem cmpVer_eq_iff (a b : PyVersion) : cmpVer a b = Ordering.eq ↔ a = b := by
  cases a with
  | mk ar ap =>
    cases b with
    | mk br bp =>
      simp [cmpVer, Ordering.then_eq_eq, cmpNatList_eq_iff, cmpPre_eq_iff,
        PyVersion.mk.injEq]

theorem cmpVer_lt_trans {a b c : PyVersion}
    (h1 : cmpVer a b = Ordering.lt) (h2 : cmpVer b c = Ordering.lt) :
    cmpVer a c = Ordering.lt := by
  simp only [cmpVer, Ordering.then_eq_lt] at h1 h2 ⊢
  rcases h1 with h1 | ⟨he1, h1⟩ <;> rcases h2 with h2 | ⟨he2, h2⟩
  · exact Or.inl (cmpNatList_lt_trans _ _ _ h1 h2)
  · rw [cmpNatList_eq_iff] at he2
    exact Or.inl (he2 ▸ h1)
  · rw [cmpNatList_eq_iff] at he1
    exact Or.inl (he1 ▸ h2)
  · rw [cmpNatList_eq_iff] at he1
    refine Or.inr ⟨?_, cmpPre_lt_trans h1 h2⟩
    rw [cmpNatList_eq_iff]
    rw [cmpNatList_eq_iff] at he2
    exact he1.trans he2

theorem cmpVer_gt_iff_lt (a b : PyVersion) :
    cmpVer a b = Ordering.gt ↔ cmpVer b a = Ordering.lt := by
  simp only [cmpVer, Ordering.then_eq_gt, Ordering.then_eq_lt, cmpNatList_gt_iff_lt,
    cmpPre_gt_iff_lt]
  constructor
  · rintro (h | ⟨he, hp⟩)
    · exact Or.inl h
    · refine Or.inr ⟨?_, hp⟩
      rw [cmpNatList_eq_iff] at he ⊢
      exact he.symm
  · rintro (h | ⟨he, hp⟩)
    · exact Or.inl h
    · refine Or.inr ⟨?_, hp⟩
      rw [cmpNatList_eq_iff] at he ⊢
      exact he.symm

theorem relGe_total (a b : Release) : relGe a b = true ∨ relGe b a = true := by
  unfold relGe
  by_cases h : cmpVer (parseVersion b.version) (parseVersion a.version) = Ordering.gt
  · right
    rw [cmpVer_gt_iff_lt] at h
    simp [h]
  · left
    simp [h]

theorem relGe_trans {a b c : Release} (h1 : relGe a b = true) (h2 : relGe b c = true) :
    relGe a c = true := by
  unfold relGe at h1 h2 ⊢
  simp only [ne_eq, decide_eq_true_eq] at h1 h2 ⊢
  intro hac
  cases ob : cmpVer (parseVersion b.version) (parseVersion a.version) with
  | gt => exact h1 ob
  | eq =>
    rw [cmpVer_eq_iff] at ob
    rw [ob] at h2
    exact h2 hac
  | lt =>
    cases oc : cmpVer (parseVersion c.version) (parseVersion b.version) with
    | gt => exact h2 oc
    | eq =>
      rw [cmpVer_eq_iff] at oc
      rw [oc] at hac
      exact h1 hac
    | lt =>
      rw [cmpVer_gt_iff_lt] at hac
      have hab : cmpVer (parseVersion a.version) (parseVersion b.version) = Ordering.lt :=
        cmpVer_lt_trans hac oc
      have haa : cmpVer (parseVersion a.version) (parseVersion a.version) = Ordering.lt :=
        cmpVer_lt_trans hab ob
      have hee : cmpVer (parseVersion a.version) (parseVersion a.version) = Ordering.eq :=
        (cmpVer_eq_iff _ _).mpr rfl
      rw [hee] at haa
      cases haa

/-! ### The descending sort is a permutation and is sorted -/

theorem ordInsertRel_perm (a : Release) :
    ∀ l : List Release, (ordInsertRel a l).Perm (a :: l)
  | [] => List.Perm.refl _
  | b :: bs => by
    unfold ordInsertRel
    by_cases h : relGe a b = true
    · rw [if_pos h]
    · rw [if_neg h]
      exact ((ordInsertRel_perm a bs).cons b).trans (List.Perm.swap a b bs)

theorem sortRelDesc_perm : ∀ l : List Release, (sortRelDesc l).Perm l
  | [] => List.Perm.refl _
  | x :: xs => by
    show (ordInsertRel x (sortRelDesc xs)).Perm (x :: xs)
    exact (ordInsertRel_perm x _).trans ((sortRelDesc_perm xs).cons x)

theorem pairwise_ordInsertRel (a : Release) :
    ∀ l : List Release, l.Pairwise (fun x y => relGe x y = true) →
      (ordInsertRel a l).Pairwise (fun x y => relGe x y = true)
  | [], _ => by simp [ordInsertRel]
  | b :: bs, hl => by
    unfold ordInsertRel
    rcases List.pairwise_cons.mp hl with ⟨hb, hbs⟩
    by_cases h : relGe a b = true
    · rw [if_pos h]
      refine List.pairwise_cons.mpr ⟨?_, hl⟩
      intro x hx
      rcases List.mem_cons.mp hx with hx | hx
      · rw [hx]; exact h
      · exact relGe_trans h (hb x hx)
    · rw [if_neg h]
      have hba : relGe b a = true := by
        rcases relGe_total a b with ht | ht
        · exact absurd ht h
        · exact ht
      refine List.pairwise_cons.mpr ⟨?_, pairwise_ordInsertRel a bs hbs⟩
      intro x hx
      rcases (ordInsertRel_perm a bs).mem_iff.mp hx with hx2
      rcases List.mem_cons.mp hx2 with hx3 | hx3
      · rw [hx3]; exact hba
      · exact hb x hx3

theorem sortRelDesc_pairwise : ∀ l : List Release,
    (sortRelDesc l).Pairwise (fun x y => relGe x y = true)
  | [] => List.Pairwise.nil
  | x :: xs => pairwise_ordInsertRel x _ (sortRelDesc_pairwise xs)

/-! ### Shape of the aggregation -/

theorem updateInfo_keys (ver : List Char) (l : Link) :
    ∀ acc : List (List Char × RelInfo),
      (updateInfo ver l acc).map Prod.fst =
        if ver ∈ acc.map Prod.fst then acc.map Prod.fst
        else acc.map Prod.fst ++ [ver]
  | [] => by simp [updateInfo]
  | (k, i) :: rest => by
    unfold updateInfo
    by_cases hk : k = ver
    · have hmem : ver ∈ List.map Prod.fst ((k, i) :: rest) :=
        List.mem_cons.mpr (Or.inl hk.symm)
      rw [if_pos hk, if_pos hmem]
      simp
    · rw [if_neg hk]
      simp only [List.map_cons, updateInfo_keys ver l rest]
      by_cases hm : ver ∈ rest.map Prod.fst
      · have hmem : ver ∈ Prod.fst (k, i) :: List.map Prod.fst rest :=
          List.mem_cons.mpr (Or.inr hm)
        rw [if_pos hm, if_pos hmem]
      · have hmem : ver ∉ Prod.fst (k, i) :: List.map Prod.fst rest := by
          simp only [List.mem_cons]
          rintro (h | h)
          · exact hk h.symm
          · exact hm h
        rw [if_neg hm, if_neg hmem]
        simp

theorem releasesInfoAux_keys_nodup (depName : List Char) :
    ∀ (links : List Link) (acc : List (List Char × RelInfo)),
      (acc.map Prod.fst).Nodup →
      ((releasesInfoAux depName acc links).map Prod.fst).Nodup
  | [], _ => fun h => h
  | l :: ls, acc => by
    intro hacc
    unfold releasesInfoAux
    dsimp only
    by_cases h1 : canonicalize_name (parse_name l.name).1 ≠ depName
    · rw [if_pos h1]
      exact releasesInfoAux_keys_nodup depName ls acc hacc
    · rw [if_neg h1]
      by_cases h2 : (parse_name l.name).2 = []
      · rw [if_pos h2]
        exact releasesInfoAux_keys_nodup depName ls acc hacc
      · rw [if_neg h2]
        refine releasesInfoAux_keys_nodup depName ls _ ?_
        rw [updateInfo_keys]
        by_cases hm : (parse_name l.name).2 ∈ acc.map Prod.fst
        · rw [if_pos hm]
          exact hacc
        · rw [if_neg hm]
          rw [List.nodup_append]
          exact ⟨hacc, List.nodup_singleton _, by
            intro x hx hx2
            rw [List.mem_singleton] at hx2
            rw [hx2] at hx
            exact hm hx⟩

theorem buildReleases_last (selfPre depPre : Bool) :
    ∀ info : List (List Char × RelInfo), info ≠ [] →
      ∃ r, (buildReleases selfPre depPre info).2.2 = some r
  | [], h => absurd rfl h
  | (ver, i) :: rest, _ => by
    unfold buildReleases
    dsimp only
    by_cases hp : isPrerelease (parseVersion ver) = true
    · rw [if_pos hp]
      by_cases hq : (¬ selfPre = true ∧ ¬ depPre = true)
      · rw [if_pos hq]
        exact ⟨_, rfl⟩
      · rw [if_neg hq]
        exact ⟨_, rfl⟩
    · rw [if_neg hp]
      exact ⟨_, rfl⟩

theorem buildReleases_versions_sublist (selfPre depPre : Bool) :
    ∀ info : List (List Char × RelInfo),
      ((buildReleases selfPre depPre info).1.map Release.version).Sublist
        (info.map Prod.fst)
  | [] => by simp [buildReleases]
  | (ver, i) :: rest => by
    have ih := buildReleases_versions_sublist selfPre depPre rest
    unfold buildReleases
    dsimp only
    by_cases hp : isPrerelease (parseVersion ver) = true
    · rw [if_pos hp]
      by_cases hq : (¬ selfPre = true ∧ ¬ depPre = true)
      · rw [if_pos hq]
        dsimp only
        simp only [List.map_cons]
        exact ih.cons _
      · rw [if_neg hq]
        dsimp only
        simp only [List.map_cons]
        exact ih.cons₂ _
    · rw [if_neg hp]
      dsimp only
      simp only [List.map_cons]
      exact ih.cons₂ _

/-! ### C9: uniqueness per version and descending order -/

/-- C9 counterexample: the distinct version strings `1.0` and `1.0.0` parse
to equal version values, so on the link set
`{foo-1.0.tar.gz, foo-1.0.0.tar.gz}` `get_releases` returns TWO releases for
one parsed version (in stable, not strictly descending, order); and on the
empty link set `get_releases` raises `UnboundLocalError` instead of
returning any sequence at all. -/
theorem claim_C9_counterexample :
    (get_releases false false "foo".toList
        [plainLink "foo-1.0.tar.gz".toList, plainLink "foo-1.0.0.tar.gz".toList]).map
        (List.map Release.version) =
      Except.ok ["1.0".toList, "1.0.0".toList] ∧
      parseVersion "1.0".toList = parseVersion "1.0.0".toList ∧
      cmpVer (parseVersion "1.0".toList) (parseVersion "1.0.0".toList) ≠ Ordering.gt ∧
      get_releases false false "foo".toList [] = Except.error unboundLocalMsg := by
  exact ⟨by rfl, by rfl, by decide, by rfl⟩

/-- C9 amended: for every input link set for which the release-building loop
runs at least once (the grouped version map is non-empty — otherwise the
code raises instead of returning), `get_releases` returns a sequence with
exactly one `Release` per distinct parsed version STRING, sorted descending
by version value; the order is weak in general — distinct version strings
with equal parsed values yield tied releases in stable insertion order — and
strictly descending whenever the parsed version values of the result are
pairwise distinct. -/
theorem claim_C9_amended (selfPre depPre : Bool) (depName : List Char)
    (links : List Link) (h : releasesInfo depName links ≠ []) :
    ∃ rs, get_releases selfPre depPre depName links = Except.ok rs ∧
      (rs.map Release.version).Nodup ∧
      rs.Pairwise (fun a b => relGe a b = true) ∧
      ((rs.map (fun r => parseVersion r.version)).Nodup →
        rs.Pairwise (fun a b =>
          cmpVer (parseVersion a.version) (parseVersion b.version) = Ordering.gt)) := by
  obtain ⟨r, hr⟩ := buildReleases_last selfPre depPre _ h
  refine ⟨sortRelDesc (buildReleases selfPre depPre (releasesInfo depName links)).1,
    ?_, ?_, ?_, ?_⟩
  · unfold get_releases
    dsimp only
    rw [hr]
  · have hkeys : ((releasesInfo depName links).map Prod.fst).Nodup :=
      releasesInfoAux_keys_nodup depName links [] (by simp)
    have hsub := buildReleases_versions_sublist selfPre depPre (releasesInfo depName links)
    have hnodup := hsub.nodup hkeys
    have hperm :=
      (sortRelDesc_perm (buildReleases selfPre depPre (releasesInfo depName links)).1).map
        Release.version
    exact hperm.nodup_iff.mpr hnodup
  · exact sortRelDesc_pairwise _
  · intro hvals
    have hpw := sortRelDesc_pairwise
      (buildReleases selfPre depPre (releasesInfo depName links)).1
    have hne := (List.pairwise_map.mp hvals).imp (fun {a b} hab => hab)
    refine (hpw.and hne).imp ?_
    intro a b hab
    obtain ⟨hge, hneq⟩ := hab
    unfold relGe at hge
    simp only [ne_eq, decide_eq_true_eq] at hge
    cases o : cmpVer (parseVersion a.version) (parseVersion b.version) with
    | gt => rfl
    | eq =>
      rw [cmpVer_eq_iff] at o
      exact absurd o hneq
    | lt =>
      rw [← cmpVer_gt_iff_lt] at o
      exact absurd o hge

/-- Witness for C9 amended at a two-version link set: the grouped map is
non-empty and the result lists `2.0` before `1.0`. -/
theorem claim_C9_amended_witness :
    releasesInfo "foo".toList
        [plainLink "foo-1.0.tar.gz".toList, plainLink "foo-2.0.tar.gz".toList] ≠ [] ∧
      ∃ rs, get_releases false false "foo".toList
          [plainLink "foo-1.0.tar.gz".toList, plainLink "foo-2.0.tar.gz".toList] =
            Except.ok rs ∧
        (rs.map Release.version).Nodup ∧
        rs.Pairwise (fun a b => relGe a b = true) ∧
        ((rs.map (fun r => parseVersion r.version)).Nodup →
          rs.Pairwise (fun a b =>
            cmpVer (parseVersion a.version) (parseVersion b.version) = Ordering.gt)) :=
  ⟨by decide,
   claim_C9_amended false false "foo".toList
     [plainLink "foo-1.0.tar.gz".toList, plainLink "foo-2.0.tar.gz".toList] (by decide)⟩

end Warehouse
